import Mathlib

/-!
Shallow embedding of `src/experiment.py` (tapping experiment driver):
the synchronization–continuation event loop, the SPR (tap-counting) loop,
the Arduino handshake, and the continuation-score computation, together
with theorems settling the specification claims about them.
-/

namespace ITM

/-- Python runtime values relevant to the event loops: the code mixes `str`
values (`phase = 'B'`, `in_byte.decode('utf-8')`) with `bytes` values
(`b'C'`).  In Python 3 a `str` never compares equal to a `bytes`, which
structural equality of this type reproduces (distinct constructors are
never equal). -/
inductive PyVal
  | str (s : String)
  | bytes (s : String)
deriving DecidableEq

/-- One parsed message from the Arduino, as consumed by the event loops:
a tag byte (`S`, `C`, `T`, `R`) followed by a 4-byte little-endian
timestamp read by `read_timestamp`, or the bare trial-end tag `I`. -/
inductive DevEvent
  | tone_s (t : Nat)
  | tone_c (t : Nat)
  | tap (t : Nat)
  | release (t : Nat)
  | trial_end
deriving DecidableEq

/-- Mutable state of the synchronization–continuation loop
(`src/experiment.py` lines 255-300).  `relabels` is an instrumentation
counter recording how many times the relabel assignment
`tap_types[-1] = in_byte.decode('utf-8')` (line 290) has executed; it is
not a variable of the source and influences nothing. -/
structure SCState where
  phase : PyVal
  tone_times : List Nat
  tap_types : List PyVal
  tap_times : List Nat
  release_times : List Nat
  relabels : Nat
deriving DecidableEq

/-- State immediately after `arduino_ser.write(b'B%i%i' % ...)`:
`phase = 'B'` (line 278) and the four data lists are empty (lines 256-259). -/
def initSC : SCState :=
  { phase := PyVal.str "B", tone_times := [], tap_types := [],
    tap_times := [], release_times := [], relabels := 0 }

/-- One iteration body of the sync–continuation loop (lines 284-297) on a
non-`I` byte.  `none` models the uncaught `IndexError` raised by
`tap_types[-1] = ...` when `tap_types` is empty.  The relabel guard is the
source's `in_byte == b'C' and phase != b'C'` — note `phase` always holds a
`str` while `b'C'` is `bytes`, so the second conjunct is true whenever it
is evaluated. -/
def scStep (st : SCState) (e : DevEvent) : Option SCState :=
  match e with
  | .tone_s t =>
      some { st with phase := PyVal.str "S", tone_times := st.tone_times ++ [t] }
  | .tone_c t =>
      if st.phase ≠ PyVal.bytes "C" then
        match st.tap_types with
        | [] => none
        | _ :: _ =>
            some { st with
              tap_types := st.tap_types.dropLast ++ [PyVal.str "C"],
              relabels := st.relabels + 1,
              phase := PyVal.str "C",
              tone_times := st.tone_times ++ [t] }
      else
        some { st with phase := PyVal.str "C", tone_times := st.tone_times ++ [t] }
  | .tap t =>
      some { st with tap_types := st.tap_types ++ [st.phase],
                     tap_times := st.tap_times ++ [t] }
  | .release t =>
      some { st with release_times := st.release_times ++ [t] }
  | .trial_end => some st

/-- Result of driving an event loop on a finite message trace:
`done` — the loop reached its exit condition; `crash` — an uncaught
exception; `starved` — the trace ended first (the source loop would spin
on `in_waiting` forever). -/
inductive LoopResult (α : Type)
  | done (a : α)
  | crash
  | starved
deriving DecidableEq

/-- The sync–continuation `while True` loop (lines 282-300): consume
events until the `I` tag, which clears the input buffer (discarding the
rest of the trace) and breaks out with the accumulated state. -/
def scLoop : SCState → List DevEvent → LoopResult SCState
  | _, [] => .starved
  | st, .trial_end :: _ => .done st
  | st, .tone_s t :: rest =>
      match scStep st (.tone_s t) with
      | none => .crash
      | some st' => scLoop st' rest
  | st, .tone_c t :: rest =>
      match scStep st (.tone_c t) with
      | none => .crash
      | some st' => scLoop st' rest
  | st, .tap t :: rest =>
      match scStep st (.tap t) with
      | none => .crash
      | some st' => scLoop st' rest
  | st, .release t :: rest =>
      match scStep st (.release t) with
      | none => .crash
      | some st' => scLoop st' rest

/-- Mutable state of the SPR (tap-counting) loop
(`src/experiment.py` lines 190-209). -/
structure SPRState where
  tap_types : List PyVal
  tap_times : List Nat
  release_times : List Nat
deriving DecidableEq

/-- The three lists are initialized empty (lines 190-192). -/
def initSPR : SPRState := { tap_types := [], tap_times := [], release_times := [] }

/-- One iteration body of the SPR loop on one byte (lines 204-209):
a `T` appends the literal type `'P'` and the timestamp, an `R` appends the
release timestamp, and any other byte falls through both `elif` branches
and is ignored. -/
def sprStep (st : SPRState) (e : DevEvent) : SPRState :=
  match e with
  | .tap t =>
      { st with tap_types := st.tap_types ++ [PyVal.str "P"],
                tap_times := st.tap_times ++ [t] }
  | .release t => { st with release_times := st.release_times ++ [t] }
  | _ => st

/-- Number of releases the SPR task lasts for (`nspr_taps = 30`, line 57). -/
def nspr_taps : Nat := 30

/-- The SPR `while len(release_times) < nspr_taps` loop (lines 202-209):
the guard is tested before each read, and the loop exits with the residual
trace still buffered. -/
def sprLoop : SPRState → List DevEvent → LoopResult (SPRState × List DevEvent)
  | st, evs =>
    if nspr_taps ≤ st.release_times.length then .done (st, evs)
    else
      match evs with
      | [] => .starved
      | e :: rest => sprLoop (sprStep st e) rest

/-- What the SPR task leaves behind after its loop (lines 211-214):
the per-trial record, the stop byte `b'I'` written to the Arduino, and the
residual buffered events thrown away by `reset_input_buffer`. -/
structure SPROutcome where
  record : SPRState
  stop_sent : Bool
  discarded : List DevEvent
deriving DecidableEq

/-- The whole SPR session body: run the tapping loop from empty lists,
then send the stop command and clear the input buffer (lines 202-214). -/
def runSPR (evs : List DevEvent) : LoopResult SPROutcome :=
  match sprLoop initSPR evs with
  | .done (st, rest) => .done { record := st, stop_sent := true, discarded := rest }
  | .crash => .crash
  | .starved => .starved

/-- Number of `R` (release) events in a trace. -/
def countR : List DevEvent → Nat
  | [] => 0
  | .release _ :: rest => countR rest + 1
  | _ :: rest => countR rest

/-- Whether an event is a tap or a release (`T` or `R` tag). -/
def isTR : DevEvent → Bool
  | .tap _ => true
  | .release _ => true
  | _ => false

/-! ### Score computation (lines 302-304) -/

/-- Result of the post-trial score computation: either the displayed
integer score, or the uncaught `ValueError` that `int()` raises on the
`nan` produced by `std()` of an empty array. -/
inductive ScoreResult
  | score (n : Nat)
  | valueErrorNaN
deriving DecidableEq

/-- Line 303: `cont_times = np.array(tap_times)[np.array(tap_types) == 'C']`
— the tap timestamps whose positionally matching type equals the `str`
`'C'`. -/
def cont_times (tap_types : List PyVal) (tap_times : List Nat) : List Nat :=
  (List.zip tap_types tap_times).filterMap
    (fun p => if p.1 = PyVal.str "C" then some p.2 else none)

/-- `np.diff`: successive differences of a list of timestamps. -/
def np_diff : List Nat → List Int
  | a :: b :: rest => ((b : Int) - (a : Int)) :: np_diff (b :: rest)
  | _ => []

/-- Population mean of a list of integers, as an exact rational
(`0` on the empty list, where numpy would give `nan`; `cont_score` never
consults this value in that case). -/
def np_mean (l : List Int) : ℚ := (l.sum : ℚ) / (l.length : ℚ)

/-- Population variance (`np.std` squared): mean of squared deviations
from the mean, as an exact rational. -/
def popVar (l : List Int) : ℚ :=
  (l.map (fun d => ((d : ℚ) - np_mean l) * ((d : ℚ) - np_mean l))).sum / (l.length : ℚ)

/-- Line 304: `cont_score = int(np.diff(cont_times).std())`.
On an empty difference array `std()` returns `nan` and `int(nan)` raises
`ValueError`, modelled by `valueErrorNaN`.  Otherwise `std()` is the
population standard deviation and `int` truncates it toward zero, i.e.
(the value being nonnegative) takes the floor: `Nat.sqrt ⌊variance⌋` —
arithmetic is modelled exactly rather than in float64. -/
def cont_score (tap_types : List PyVal) (tap_times : List Nat) : ScoreResult :=
  let d := np_diff (cont_times tap_types tap_times)
  if d.isEmpty then .valueErrorNaN
  else .score (Nat.sqrt (Int.toNat (popVar d).floor))

/-! ### Handshake (lines 127-166) -/

/-- Outcome of the `H`/`I` acknowledgement loop (lines 147-156).  The
loop polls once per second; on the first poll with data available it reads
one byte and either breaks out (byte `I`) or raises; if all polls see no
data the loop's `else` clause raises. -/
inductive AckResult
  | connected
  | unexpectedResponse (b : Char)
  | noResponse
deriving DecidableEq

/-- The `for i in range(5)` acknowledgement loop over the successive poll
results (`none` = `in_waiting == 0` at that second, `some b` = byte `b`
read). -/
def ackLoop : List (Option Char) → AckResult
  | [] => .noResponse
  | none :: rest => ackLoop rest
  | some b :: _ => if b = 'I' then .connected else .unexpectedResponse b

/-- The first byte the polling loop would actually read: the first
available byte, if any poll sees data. -/
def firstAvail : List (Option Char) → Option Char
  | [] => none
  | none :: rest => firstAvail rest
  | some b :: _ => some b

/-- The acknowledgement step as run by the source: exactly 5 polls. -/
def handshakeAck (polls : List (Option Char)) : AckResult := ackLoop (polls.take 5)

/-- Environment for one run of the connection block: whether
`ser.Serial(...)` succeeds, the lines `readline()` yields before the
first empty line, and the 5 acknowledgement poll results. -/
structure HSEnv where
  openOk : Bool
  bannerLines : List String
  polls : List (Option Char)

/-- Failure classification of the handshake, mirroring the `raise`d
messages and, for an open failure, the `NameError` the handler itself
hits at `arduino_ser.close()` (the name was never bound). -/
inductive HSError
  | unexpectedBanner (allMessages : String)
  | unexpectedResponse (b : Char)
  | noResponse
  | openFailed
deriving DecidableEq

/-- How a failed handshake terminates: which error was raised, whether
the serial link had been opened, whether the handler closed it
(line 164), and whether the handler itself crashed with `NameError`. -/
structure HSFailure where
  error : HSError
  linkOpened : Bool
  linkClosed : Bool
  handlerCrashed : Bool
deriving DecidableEq

/-- Result of the whole connection block (lines 127-166). -/
inductive HSResult
  | connected
  | failed (f : HSFailure)
deriving DecidableEq

/-- The readiness banner the startup loop looks for (line 139). -/
def readyBanner : String := "Ready!\r\n"

/-- The connection block (lines 127-166): open the port; read lines until
an empty one, requiring some line to equal `"Ready!\r\n"`; then write
`b'H'` and run the 5-poll acknowledgement loop.  Every `raise` lands in
the `except` handler, which closes the link (line 164) — except when
`ser.Serial` itself failed, where `arduino_ser` is unbound and the
handler dies with `NameError` before any close (no link was opened). -/
def handshake (env : HSEnv) : HSResult :=
  if !env.openOk then
    .failed { error := .openFailed, linkOpened := false, linkClosed := false,
              handlerCrashed := true }
  else if !(env.bannerLines.contains readyBanner) then
    .failed { error := .unexpectedBanner (String.join env.bannerLines),
              linkOpened := true, linkClosed := true, handlerCrashed := false }
  else
    match handshakeAck env.polls with
    | .connected => .connected
    | .unexpectedResponse b =>
        .failed { error := .unexpectedResponse b, linkOpened := true,
                  linkClosed := true, handlerCrashed := false }
    | .noResponse =>
        .failed { error := .noResponse, linkOpened := true, linkClosed := true,
                  handlerCrashed := false }

/-- States of the sync–continuation loop reachable from the start of a
trial by executing loop iterations that do not raise. -/
inductive SCReach : SCState → Prop
  | init : SCReach initSC
  | step {st st' : SCState} {e : DevEvent} :
      SCReach st → scStep st e = some st' → SCReach st'

/-- Inductive invariant of the sync–continuation loop: the phase variable
holds one of the `str` values `'B'`, `'S'`, `'C'`; once a tone has been
heard it is no longer `'B'`; and every recorded tap type is one of those
three strings. -/
def scInv (st : SCState) : Prop :=
  (st.phase = PyVal.str "B" ∨ st.phase = PyVal.str "S" ∨ st.phase = PyVal.str "C") ∧
  (st.tone_times ≠ [] → st.phase ≠ PyVal.str "B") ∧
  (∀ v ∈ st.tap_types, v = PyVal.str "B" ∨ v = PyVal.str "S" ∨ v = PyVal.str "C")

/-! ## Generic loop lemmas -/

/-- Any property preserved by non-raising loop iterations holds of the
state the sync–continuation loop finishes with. -/
theorem scLoop_inv (P : SCState → Prop)
    (hstep : ∀ (st : SCState) (e : DevEvent) (st' : SCState),
      P st → scStep st e = some st' → P st') :
    ∀ (evs : List DevEvent) (st st' : SCState),
      P st → scLoop st evs = .done st' → P st' := by
  intro evs
  induction evs with
  | nil => intro st st' _ hloop; simp [scLoop] at hloop
  | cons e rest ih =>
    intro st st' hP hloop
    cases e with
    | trial_end =>
        simp only [scLoop] at hloop
        cases hloop
        exact hP
    | tone_s t =>
        simp only [scLoop] at hloop
        rcases h : scStep st (.tone_s t) with _ | st1 <;> rw [h] at hloop
        · simp at hloop
        · exact ih st1 st' (hstep st _ st1 hP h) hloop
    | tone_c t =>
        simp only [scLoop] at hloop
        rcases h : scStep st (.tone_c t) with _ | st1 <;> rw [h] at hloop
        · simp at hloop
        · exact ih st1 st' (hstep st _ st1 hP h) hloop
    | tap t =>
        simp only [scLoop] at hloop
        rcases h : scStep st (.tap t) with _ | st1 <;> rw [h] at hloop
        · simp at hloop
        · exact ih st1 st' (hstep st _ st1 hP h) hloop
    | release t =>
        simp only [scLoop] at hloop
        rcases h : scStep st (.release t) with _ | st1 <;> rw [h] at hloop
        · simp at hloop
        · exact ih st1 st' (hstep st _ st1 hP h) hloop

/-- A state the loop completes with is reachable. -/
theorem scLoop_reach {evs : List DevEvent} {st st' : SCState}
    (h0 : SCReach st) (h : scLoop st evs = .done st') : SCReach st' :=
  scLoop_inv SCReach (fun _ _ _ hr hs => SCReach.step hr hs) evs st st' h0 h

/-- `scInv` is preserved by every non-raising loop iteration. -/
theorem scStep_scInv (st : SCState) (e : DevEvent) (st' : SCState)
    (hInv : scInv st) (hstep : scStep st e = some st') : scInv st' := by
  obtain ⟨hphase, htone, htags⟩ := hInv
  cases e with
  | tone_s t =>
      cases hstep
      refine ⟨Or.inr (Or.inl rfl), fun _ h => absurd (PyVal.str.inj h) (by decide), htags⟩
  | tone_c t =>
      rw [scStep] at hstep
      split at hstep
      · rcases htt : st.tap_types with _ | ⟨x, xs⟩ <;> rw [htt] at hstep
        · cases hstep
        · cases hstep
          refine ⟨Or.inr (Or.inr rfl), fun _ h => absurd (PyVal.str.inj h) (by decide), ?_⟩
          intro v hv
          have hv' : v ∈ (x :: xs).dropLast ++ [PyVal.str "C"] := hv
          rw [List.mem_append, List.mem_singleton] at hv'
          rcases hv' with hv' | hv'
          · refine htags v ?_
            rw [htt]
            exact List.dropLast_subset _ hv'
          · exact Or.inr (Or.inr hv')
      · cases hstep
        exact ⟨Or.inr (Or.inr rfl), fun _ h => absurd (PyVal.str.inj h) (by decide), htags⟩
  | tap t =>
      cases hstep
      refine ⟨hphase, htone, ?_⟩
      intro v hv
      have hv' : v ∈ st.tap_types ++ [st.phase] := hv
      rw [List.mem_append, List.mem_singleton] at hv'
      rcases hv' with hv' | hv'
      · exact htags v hv'
      · exact hv' ▸ hphase
  | release t =>
      cases hstep
      exact ⟨hphase, htone, htags⟩
  | trial_end =>
      cases hstep
      exact ⟨hphase, htone, htags⟩

/-- Every reachable state of the sync–continuation loop satisfies `scInv`. -/
theorem reach_scInv {st : SCState} (h : SCReach st) : scInv st := by
  induction h with
  | init => exact ⟨Or.inl rfl, fun h => absurd rfl h, by simp [initSC]⟩
  | step hr hs ih => exact scStep_scInv _ _ _ ih hs

/-! ## Claim theorems for the sync–continuation loop -/

/-- C1 (code evidence): on the trace Tap, ContinuationTone, Tap, SyncTone,
Tap, ContinuationTone, TrialEnd the relabel assignment executes twice —
the guard `phase != b'C'` compares a `str` against `bytes` and is always
true, so every ContinuationTone relabels, and the tap appended during the
intervening Sync phase is observably overwritten to `'C'`. -/
theorem second_continuation_tone_relabels_again :
    scLoop initSC [.tap 10, .tone_c 20, .tap 30, .tone_s 40, .tap 50,
                   .tone_c 60, .trial_end] =
      .done { phase := PyVal.str "C", tone_times := [20, 40, 60],
              tap_types := [PyVal.str "C", PyVal.str "C", PyVal.str "C"],
              tap_times := [10, 30, 50], release_times := [], relabels := 2 } := rfl

/-- C2 (counterexample): the trace `S,T,S,T,C,T,T,I` contains four `T`
tags, so the loop records four TapEvents, tagged
`[Sync, Continuation, Continuation, Continuation]` — not the three tags
`[Sync, Continuation, Continuation]` the claim states. -/
theorem sc_trace_yields_four_tap_tags :
    scLoop initSC [.tone_s 1, .tap 11, .tone_s 2, .tap 12, .tone_c 3,
                   .tap 13, .tap 14, .trial_end] =
      .done { phase := PyVal.str "C", tone_times := [1, 2, 3],
              tap_types := [PyVal.str "S", PyVal.str "C", PyVal.str "C", PyVal.str "C"],
              tap_times := [11, 12, 13, 14], release_times := [], relabels := 1 } ∧
    [PyVal.str "S", PyVal.str "C", PyVal.str "C", PyVal.str "C"] ≠
      [PyVal.str "S", PyVal.str "C", PyVal.str "C"] :=
  ⟨rfl, by decide⟩

/-- C2 (amended): on the trace `S,T,S,T,C,T,T,I` the loop produces
TapEvents tagged `[Sync, Continuation, Continuation, Continuation]` (the
tap immediately preceding the `C` tag is relabeled from Sync to
Continuation, and the trace holds four taps), tone timestamps
`[t1, t2, t3]`, and terminates on consuming `I`. -/
theorem sc_trace_behavior (t1 t2 t3 u1 u2 u3 u4 : Nat) :
    scLoop initSC [.tone_s t1, .tap u1, .tone_s t2, .tap u2, .tone_c t3,
                   .tap u3, .tap u4, .trial_end] =
      .done { phase := PyVal.str "C", tone_times := [t1, t2, t3],
              tap_types := [PyVal.str "S", PyVal.str "C", PyVal.str "C", PyVal.str "C"],
              tap_times := [u1, u2, u3, u4], release_times := [], relabels := 1 } := rfl

/-- C3 (code evidence): with a single Continuation-tagged tap the
difference array is empty, `std()` yields `nan`, and `int(nan)` raises an
uncaught `ValueError` — the computation crashes instead of failing with a
handled `InsufficientData` error. -/
theorem single_continuation_tap_crashes_score :
    cont_times [PyVal.str "C"] [100] = [100] ∧
    np_diff [100] = ([] : List Int) ∧
    cont_score [PyVal.str "C"] [100] = .valueErrorNaN :=
  ⟨rfl, rfl, rfl⟩

/-- C4 (counterexample): a tap consumed before any tone of the trial is
appended with the phase value `'B'` set at line 278 — neither Sync (`'S'`)
nor Continuation (`'C'`). -/
theorem tap_before_first_tone_tagged_B :
    scLoop initSC [.tap 7, .trial_end] =
      .done { phase := PyVal.str "B", tone_times := [], tap_types := [PyVal.str "B"],
              tap_times := [7], release_times := [], relabels := 0 } ∧
    PyVal.str "B" ≠ PyVal.str "S" ∧ PyVal.str "B" ≠ PyVal.str "C" :=
  ⟨rfl, by decide, by decide⟩

/-- C4 (amended): every tap appended during a sync–continuation trial is
tagged with one of the phase strings `'B'`, `'S'`, `'C'`; a tap is tagged
with the phase current at the time of the tap, and once at least one tone
has been consumed that phase is Sync or Continuation — so only taps
arriving before the first tone carry the extra start tag `'B'`. -/
theorem tap_tags_in_phase_set :
    (∀ st : SCState, SCReach st →
        ∀ v ∈ st.tap_types,
          v = PyVal.str "B" ∨ v = PyVal.str "S" ∨ v = PyVal.str "C") ∧
    (∀ (evs : List DevEvent) (st' : SCState), scLoop initSC evs = .done st' →
        ∀ v ∈ st'.tap_types,
          v = PyVal.str "B" ∨ v = PyVal.str "S" ∨ v = PyVal.str "C") ∧
    (∀ (st : SCState) (t : Nat), SCReach st → st.tone_times ≠ [] →
        scStep st (.tap t) =
          some { st with tap_types := st.tap_types ++ [st.phase],
                         tap_times := st.tap_times ++ [t] } ∧
        (st.phase = PyVal.str "S" ∨ st.phase = PyVal.str "C")) := by
  refine ⟨fun st hr => (reach_scInv hr).2.2, ?_, ?_⟩
  · intro evs st' hloop
    exact (reach_scInv (scLoop_reach SCReach.init hloop)).2.2
  · intro st t hr htone
    obtain ⟨hphase, himp, _⟩ := reach_scInv hr
    refine ⟨rfl, ?_⟩
    rcases hphase with h | h | h
    · exact absurd h (himp htone)
    · exact Or.inl h
    · exact Or.inr h

/-- C4 witness: the state reached by consuming one SyncTone is reachable,
has a tone recorded, and a tap consumed there is appended tagged `'S'`. -/
theorem tap_tags_in_phase_set_witness :
    SCReach { phase := PyVal.str "S", tone_times := [10], tap_types := [],
              tap_times := [], release_times := [], relabels := 0 } ∧
    (scStep { phase := PyVal.str "S", tone_times := [10], tap_types := [],
              tap_times := [], release_times := [], relabels := 0 } (.tap 5) =
        some { phase := PyVal.str "S", tone_times := [10],
               tap_types := [PyVal.str "S"], tap_times := [5],
               release_times := [], relabels := 0 } ∧
      (PyVal.str "S" = PyVal.str "S" ∨ PyVal.str "S" = PyVal.str "C")) :=
  ⟨@SCReach.step initSC _ (DevEvent.tone_s 10) SCReach.init rfl,
   tap_tags_in_phase_set.2.2 _ 5
     (@SCReach.step initSC _ (DevEvent.tone_s 10) SCReach.init rfl) (by decide)⟩

/-- C10: if the first ContinuationTone arrives before any tap, the relabel
`tap_types[-1]` indexes an empty list and the loop crashes with an
uncaught `IndexError`; the relabel branch raises exactly when `tap_types`
is empty (for the `str`-valued phases the loop actually uses) and
succeeds whenever at least one tap was appended earlier. -/
theorem relabel_requires_prior_tap :
    (∀ (t : Nat) (rest : List DevEvent),
        scLoop initSC (.tone_c t :: rest) = .crash) ∧
    (∀ (st : SCState) (t : Nat), st.phase ≠ PyVal.bytes "C" → st.tap_types = [] →
        scStep st (.tone_c t) = none) ∧
    (∀ (st : SCState) (t : Nat), st.tap_types ≠ [] →
        ∃ st', scStep st (.tone_c t) = some st') := by
  refine ⟨fun t rest => rfl, ?_, ?_⟩
  · intro st t hphase htap
    simp [scStep, hphase, htap]
  · intro st t htap
    rw [scStep]
    split
    · rcases htt : st.tap_types with _ | ⟨x, xs⟩
      · exact absurd htt htap
      · exact ⟨_, rfl⟩
    · exact ⟨_, rfl⟩

/-- C10 witness: at the initial state (no tap yet) the relabel raises;
with one prior tap it succeeds. -/
theorem relabel_requires_prior_tap_witness :
    initSC.phase ≠ PyVal.bytes "C" ∧ initSC.tap_types = [] ∧
    scStep initSC (.tone_c 5) = none ∧
    scLoop initSC [.tone_c 5] = .crash :=
  ⟨by decide, rfl,
   relabel_requires_prior_tap.2.1 initSC 5 (by decide) rfl,
   relabel_requires_prior_tap.1 5 []⟩

/-! ## SPR (tap-counting) loop lemmas -/

/-- Unfolding equation of `sprLoop` with the guard exposed. -/
theorem sprLoop_eq (st : SPRState) (evs : List DevEvent) :
    sprLoop st evs =
      if nspr_taps ≤ st.release_times.length then .done (st, evs)
      else
        match evs with
        | [] => .starved
        | e :: rest => sprLoop (sprStep st e) rest := by
  rw [sprLoop.eq_def]

/-- Stepping once changes the release count by one exactly on an `R`
event, stated in a form convenient for counting across a trace. -/
theorem sprStep_release_len (st : SPRState) (e : DevEvent) (l : List DevEvent) :
    (sprStep st e).release_times.length + countR l =
      st.release_times.length + countR (e :: l) := by
  cases e <;> simp [sprStep, countR]
  omega

/-- Release count accumulated by folding the step function over a trace. -/
theorem foldl_sprStep_release_len :
    ∀ (l : List DevEvent) (st : SPRState),
      (List.foldl sprStep st l).release_times.length =
        st.release_times.length + countR l := by
  intro l
  induction l with
  | nil => intro st; simp [countR]
  | cons e l ih =>
    intro st
    rw [List.foldl_cons, ih]
    have h := sprStep_release_len st e l
    omega

/-- While the release target has not been reached, the SPR loop consumes
its input one event at a time: running it on `pre ++ rest` where `pre`
holds too few releases to stop is running it on `rest` from the folded
state. -/
theorem sprLoop_through :
    ∀ (pre : List DevEvent) (st : SPRState) (rest : List DevEvent),
      st.release_times.length + countR pre < nspr_taps →
      sprLoop st (pre ++ rest) = sprLoop (List.foldl sprStep st pre) rest := by
  intro pre
  induction pre with
  | nil => intro st rest _; rfl
  | cons e pre ih =>
    intro st rest h
    have hcnt := sprStep_release_len st e pre
    have hlt : ¬ nspr_taps ≤ st.release_times.length := by omega
    rw [List.cons_append, sprLoop_eq, if_neg hlt, List.foldl_cons]
    exact ih (sprStep st e) rest (by omega)

/-- Any property preserved by the step function holds of the record the
SPR loop finishes with. -/
theorem sprLoop_inv (P : SPRState → Prop)
    (hstep : ∀ st e, P st → P (sprStep st e)) :
    ∀ (evs : List DevEvent) (st st' : SPRState) (rest : List DevEvent),
      P st → sprLoop st evs = .done (st', rest) → P st' := by
  intro evs
  induction evs with
  | nil =>
    intro st st' rest hP hloop
    rw [sprLoop_eq] at hloop
    split at hloop
    · cases hloop; exact hP
    · simp at hloop
  | cons e evs ih =>
    intro st st' rest hP hloop
    rw [sprLoop_eq] at hloop
    split at hloop
    · cases hloop; exact hP
    · exact ih (sprStep st e) st' rest (hstep st e hP) hloop

/-! ## Claim theorems for the SPR loop -/

/-- C6: in both loops every step preserves `len(tap_types) ==
len(tap_times)` — a tap appends to both lists, a release to neither, and
the relabel replaces the last element without changing length — so the
equality holds at every point of a trial and in every completed record. -/
theorem tap_lists_stay_aligned :
    (∀ (st : SPRState) (e : DevEvent),
        st.tap_types.length = st.tap_times.length →
        (sprStep st e).tap_types.length = (sprStep st e).tap_times.length) ∧
    (∀ (st : SCState) (e : DevEvent) (st' : SCState),
        st.tap_types.length = st.tap_times.length →
        scStep st e = some st' →
        st'.tap_types.length = st'.tap_times.length) ∧
    (∀ (evs : List DevEvent) (out : SPROutcome), runSPR evs = .done out →
        out.record.tap_types.length = out.record.tap_times.length) ∧
    (∀ (evs : List DevEvent) (st' : SCState), scLoop initSC evs = .done st' →
        st'.tap_types.length = st'.tap_times.length) := by
  have h1 : ∀ (st : SPRState) (e : DevEvent),
      st.tap_types.length = st.tap_times.length →
      (sprStep st e).tap_types.length = (sprStep st e).tap_times.length := by
    intro st e h
    cases e <;> simp [sprStep, h]
  have h2 : ∀ (st : SCState) (e : DevEvent) (st' : SCState),
      st.tap_types.length = st.tap_times.length → scStep st e = some st' →
      st'.tap_types.length = st'.tap_times.length := by
    intro st e st' h hstep
    cases e with
    | tone_s t => cases hstep; exact h
    | tone_c t =>
      rw [scStep] at hstep
      split at hstep
      · rcases htt : st.tap_types with _ | ⟨x, xs⟩ <;> rw [htt] at hstep
        · cases hstep
        · cases hstep
          show ((x :: xs).dropLast ++ [PyVal.str "C"]).length = st.tap_times.length
          rw [List.length_append, List.length_dropLast, ← h, htt]
          simp
      · cases hstep; exact h
    | tap t =>
      cases hstep
      show (st.tap_types ++ [st.phase]).length = (st.tap_times ++ [t]).length
      simp [h]
    | release t => cases hstep; exact h
    | trial_end => cases hstep; exact h
  refine ⟨h1, h2, ?_, ?_⟩
  · intro evs out h
    rw [runSPR] at h
    rcases hsp : sprLoop initSPR evs with ⟨st, rest⟩ | _ | _ <;> rw [hsp] at h
    · cases h
      exact sprLoop_inv (fun s => s.tap_types.length = s.tap_times.length)
        (fun s e hP => h1 s e hP) evs initSPR st rest rfl hsp
    · simp at h
    · simp at h
  · intro evs st' h
    exact scLoop_inv (fun s => s.tap_types.length = s.tap_times.length)
      h2 evs initSC st' rfl h

/-- C6 witness: a concrete step keeps the two tap lists aligned. -/
theorem tap_lists_stay_aligned_witness :
    initSPR.tap_types.length = initSPR.tap_times.length ∧
    (sprStep initSPR (.tap 3)).tap_types.length =
      (sprStep initSPR (.tap 3)).tap_times.length :=
  ⟨rfl, tap_lists_stay_aligned.1 initSPR (.tap 3) rfl⟩

/-- C8: on any trace of tap/release events in which `pre` holds exactly
29 releases, the SPR loop exits exactly on consuming the 30th `R` — it
runs through all of `pre`, stops immediately after that release (the
record then holds `nspr_taps` releases), sends the stop byte, and the
residual events `suf` are discarded unparsed by `reset_input_buffer`. -/
theorem spr_exits_on_thirtieth_release :
    ∀ (pre : List DevEvent) (t : Nat) (suf : List DevEvent),
      (∀ e ∈ pre, isTR e = true) →
      countR pre = nspr_taps - 1 →
      runSPR (pre ++ DevEvent.release t :: suf) =
        .done { record := List.foldl sprStep initSPR (pre ++ [DevEvent.release t]),
                stop_sent := true, discarded := suf } ∧
      (List.foldl sprStep initSPR
          (pre ++ [DevEvent.release t])).release_times.length = nspr_taps := by
  intro pre t suf _ hcnt
  have hn : (0 : Nat) < nspr_taps := by rw [nspr_taps]; omega
  have hlen1 : (List.foldl sprStep initSPR pre).release_times.length = nspr_taps - 1 := by
    rw [foldl_sprStep_release_len]
    show 0 + countR pre = nspr_taps - 1
    omega
  have hstep_eq : sprStep (List.foldl sprStep initSPR pre) (DevEvent.release t) =
      List.foldl sprStep initSPR (pre ++ [DevEvent.release t]) := by
    rw [List.foldl_append, List.foldl_cons, List.foldl_nil]
  have hlen2 : (List.foldl sprStep initSPR
      (pre ++ [DevEvent.release t])).release_times.length = nspr_taps := by
    rw [← hstep_eq]
    show ((List.foldl sprStep initSPR pre).release_times ++ [t]).length = nspr_taps
    rw [List.length_append, hlen1, List.length_singleton]
    omega
  refine ⟨?_, hlen2⟩
  have hthrough : sprLoop initSPR (pre ++ DevEvent.release t :: suf) =
      sprLoop (List.foldl sprStep initSPR pre) (DevEvent.release t :: suf) :=
    sprLoop_through pre initSPR _ (show 0 + countR pre < nspr_taps by omega)
  have hloop2 : sprLoop (List.foldl sprStep initSPR pre) (DevEvent.release t :: suf) =
      .done (List.foldl sprStep initSPR (pre ++ [DevEvent.release t]), suf) := by
    rw [sprLoop_eq, if_neg (by omega)]
    show sprLoop (sprStep (List.foldl sprStep initSPR pre) (DevEvent.release t)) suf = _
    rw [hstep_eq, sprLoop_eq, if_pos (by omega)]
  rw [runSPR.eq_def, hthrough, hloop2]

/-- C8 witness: 29 releases, then the 30th release, then a residual tap
that is discarded. -/
theorem spr_exits_on_thirtieth_release_witness :
    countR (List.replicate 29 (DevEvent.release 0)) = nspr_taps - 1 ∧
    runSPR (List.replicate 29 (DevEvent.release 0) ++
        DevEvent.release 7 :: [DevEvent.tap 9]) =
      .done { record := List.foldl sprStep initSPR
                (List.replicate 29 (DevEvent.release 0) ++ [DevEvent.release 7]),
              stop_sent := true, discarded := [DevEvent.tap 9] } :=
  ⟨by decide,
   (spr_exits_on_thirtieth_release (List.replicate 29 (DevEvent.release 0)) 7
      [DevEvent.tap 9] (by decide) (by decide)).1⟩

/-! ## Score computation lemmas -/

/-- The floor notation on `ℚ` agrees with the executable `Rat.floor` the
embedding uses. -/
theorem int_floor_eq_rat_floor (q : ℚ) : ⌊q⌋ = q.floor := by
  rw [Rat.floor_def, Rat.floor_def']

/-- The population variance is nonnegative. -/
theorem popVar_nonneg (l : List Int) : 0 ≤ popVar l := by
  rw [popVar]
  apply div_nonneg
  · apply List.sum_nonneg
    intro x hx
    rw [List.mem_map] at hx
    obtain ⟨d, _, rfl⟩ := hx
    exact mul_self_nonneg _
  · positivity

/-- Truncating the real square root of a nonnegative rational to a
natural number is computing `Nat.sqrt` of the rational's floor. -/
theorem nat_sqrt_floor_eq_floor_sqrt (q : ℚ) (hq : 0 ≤ q) :
    Nat.sqrt (Int.toNat q.floor) = ⌊Real.sqrt ((q : ℝ))⌋₊ := by
  rw [← int_floor_eq_rat_floor]
  have hf0 : (0 : ℤ) ≤ ⌊q⌋ := Int.floor_nonneg.mpr hq
  have hm' : ((Int.toNat ⌊q⌋ : ℤ)) = ⌊q⌋ := Int.toNat_of_nonneg hf0
  have h1 : ((Int.toNat ⌊q⌋ : ℚ)) ≤ q := by
    have := Int.floor_le q
    rw [← hm'] at this
    exact_mod_cast this
  have h2 : q < (Int.toNat ⌊q⌋ : ℚ) + 1 := by
    have := Int.lt_floor_add_one q
    rw [← hm'] at this
    exact_mod_cast this
  have hq' : (0 : ℝ) ≤ ((q : ℚ) : ℝ) := by exact_mod_cast hq
  symm
  rw [Nat.floor_eq_iff (Real.sqrt_nonneg _)]
  constructor
  · rw [Real.le_sqrt (by positivity) hq']
    have hs := Nat.sqrt_le' (Int.toNat ⌊q⌋)
    have h1r : ((Int.toNat ⌊q⌋ : ℝ)) ≤ ((q : ℚ) : ℝ) := by exact_mod_cast h1
    have : ((Nat.sqrt (Int.toNat ⌊q⌋) ^ 2 : ℕ) : ℝ) ≤ ((Int.toNat ⌊q⌋ : ℕ) : ℝ) := by
      exact_mod_cast hs
    push_cast at this ⊢
    linarith
  · rw [Real.sqrt_lt' (by positivity)]
    have hs : Int.toNat ⌊q⌋ + 1 ≤ (Nat.sqrt (Int.toNat ⌊q⌋) + 1) ^ 2 :=
      Nat.succ_le_of_lt (Nat.lt_succ_sqrt' (Int.toNat ⌊q⌋))
    have h2r : ((q : ℚ) : ℝ) < ((Int.toNat ⌊q⌋ : ℝ)) + 1 := by exact_mod_cast h2
    have hsr : ((Int.toNat ⌊q⌋ : ℕ) : ℝ) + 1 ≤
        (((Nat.sqrt (Int.toNat ⌊q⌋) + 1) ^ 2 : ℕ) : ℝ) := by exact_mod_cast hs
    push_cast at hsr ⊢
    linarith

/-! ## Claim theorems for the score computation -/

/-- C5: on a record whose Continuation-tagged taps have timestamps
`[100, 300, 520, 740]` the computation takes differences
`[200, 220, 220]` and displays `9`; in general, whenever the difference
array is nonempty the score is the integer truncation (floor) of the real
population standard deviation of the differences. -/
theorem cont_score_is_truncated_popstd :
    (np_diff (cont_times
        [PyVal.str "C", PyVal.str "C", PyVal.str "C", PyVal.str "C"]
        [100, 300, 520, 740]) = [200, 220, 220] ∧
      cont_score [PyVal.str "C", PyVal.str "C", PyVal.str "C", PyVal.str "C"]
        [100, 300, 520, 740] = .score 9) ∧
    ∀ (tap_types : List PyVal) (tap_times : List Nat),
      np_diff (cont_times tap_types tap_times) ≠ [] →
      cont_score tap_types tap_times =
        .score ⌊Real.sqrt ((popVar (np_diff (cont_times tap_types tap_times)) : ℚ) : ℝ)⌋₊ := by
  have hgen : ∀ (tap_types : List PyVal) (tap_times : List Nat),
      np_diff (cont_times tap_types tap_times) ≠ [] →
      cont_score tap_types tap_times =
        .score ⌊Real.sqrt ((popVar (np_diff (cont_times tap_types tap_times)) : ℚ) : ℝ)⌋₊ := by
    intro ty ti h
    rw [cont_score]
    simp only [List.isEmpty_iff, h, if_false]
    rw [nat_sqrt_floor_eq_floor_sqrt _ (popVar_nonneg _)]
  refine ⟨⟨by decide, ?_⟩, hgen⟩
  rw [hgen _ _ (by decide)]
  have hd : np_diff (cont_times
      [PyVal.str "C", PyVal.str "C", PyVal.str "C", PyVal.str "C"]
      [100, 300, 520, 740]) = [200, 220, 220] := by decide
  rw [hd]
  have hv : popVar [200, 220, 220] = 800 / 9 := by
    rw [popVar, np_mean]
    norm_num
  rw [hv]
  have h9 : ⌊Real.sqrt (((800 / 9 : ℚ) : ℝ))⌋₊ = 9 := by
    rw [← nat_sqrt_floor_eq_floor_sqrt _ (by norm_num)]
    have h88 : ((800 / 9 : ℚ)).floor = 88 := by
      rw [← int_floor_eq_rat_floor, Int.floor_eq_iff]
      norm_num
    rw [h88]
    show Nat.sqrt 88 = 9
    norm_num
  rw [h9]

/-- C5 witness: two continuation taps give one difference; the theorem
applies and evaluates the score there. -/
theorem cont_score_is_truncated_popstd_witness :
    np_diff (cont_times [PyVal.str "C", PyVal.str "C"] [100, 300]) ≠ [] ∧
    cont_score [PyVal.str "C", PyVal.str "C"] [100, 300] =
      .score ⌊Real.sqrt ((popVar (np_diff
        (cont_times [PyVal.str "C", PyVal.str "C"] [100, 300])) : ℚ) : ℝ)⌋₊ :=
  ⟨by decide, cont_score_is_truncated_popstd.2 _ _ (by decide)⟩

/-! ## Handshake lemmas -/

/-- The acknowledgement loop is determined by the first available byte:
it connects exactly on `I`, reports the offending byte on anything else,
and reports no response exactly when no poll sees data. -/
theorem ackLoop_spec (l : List (Option Char)) :
    (ackLoop l = .connected ↔ firstAvail l = some 'I') ∧
    (∀ b, ackLoop l = .unexpectedResponse b ↔ (firstAvail l = some b ∧ b ≠ 'I')) ∧
    (ackLoop l = .noResponse ↔ firstAvail l = none) := by
  induction l with
  | nil => refine ⟨by simp [ackLoop, firstAvail], fun b => by simp [ackLoop, firstAvail], by simp [ackLoop, firstAvail]⟩
  | cons o rest ih =>
    cases o with
    | none =>
        simpa only [ackLoop, firstAvail] using ih
    | some b =>
        by_cases hb : b = 'I'
        · subst hb
          refine ⟨by simp [ackLoop, firstAvail], fun b' => ?_, by simp [ackLoop, firstAvail]⟩
          simp only [ackLoop, firstAvail, if_pos rfl]
          constructor
          · intro h; exact absurd h (by simp)
          · rintro ⟨h1, h2⟩
            rw [Option.some_inj] at h1
            exact absurd h1.symm h2
        · refine ⟨?_, fun b' => ?_, ?_⟩
          · simp [ackLoop, firstAvail, hb]
          · simp only [ackLoop, firstAvail, if_neg hb]
            constructor
            · intro h
              cases h
              exact ⟨rfl, hb⟩
            · rintro ⟨h1, _⟩
              rw [Option.some_inj] at h1
              rw [h1]
          · simp [ackLoop, firstAvail, hb]

/-! ## Claim theorems for the handshake -/

/-- C7: over the 5 one-second polls, the hello/ack step reaches Connected
exactly when the first byte it manages to read (on whichever of the 5
attempts data first appears) is the ack byte `I`; it fails with
`UnexpectedResponse` carrying the offending byte exactly when that first
byte differs from `I`; and it fails with `NoResponse` exactly when all 5
polls see no data. -/
theorem handshake_ack_characterization (polls : List (Option Char))
    (h : polls.length = 5) :
    (handshakeAck polls = .connected ↔ firstAvail polls = some 'I') ∧
    (∀ b, handshakeAck polls = .unexpectedResponse b ↔
        (firstAvail polls = some b ∧ b ≠ 'I')) ∧
    (handshakeAck polls = .noResponse ↔ firstAvail polls = none) := by
  have ht : polls.take 5 = polls := List.take_of_length_le (by omega)
  rw [handshakeAck, ht]
  exact ackLoop_spec polls

/-- C7 witness: scenario A of the spec — no data on attempt 1, ack byte
`I` on attempt 2 of 5 — reaches Connected. -/
theorem handshake_ack_characterization_witness :
    ([none, some 'I', none, none, none] : List (Option Char)).length = 5 ∧
    handshakeAck [none, some 'I', none, none, none] = .connected :=
  ⟨rfl, (handshake_ack_characterization [none, some 'I', none, none, none]
          rfl).1.mpr (by decide)⟩

/-- C9: whenever the connection block fails — unexpected banner,
unexpected response byte, no response after the 5 polls, or a failure of
`ser.Serial` itself — the serial link is not left open at program
termination: the handler closes it in exactly the runs that opened it
(when opening itself failed there is no link, and the handler dies on the
unbound name before reaching `close`). -/
theorem handshake_failure_link_not_left_open :
    ∀ (env : HSEnv) (f : HSFailure), handshake env = .failed f →
      f.linkClosed = f.linkOpened := by
  intro env f h
  rw [handshake] at h
  split at h
  · cases h; rfl
  · split at h
    · cases h; rfl
    · rcases hm : handshakeAck env.polls with _ | b | _ <;> rw [hm] at h
      · cases h
      · cases h; rfl
      · cases h; rfl

/-- C9 witness: a failed banner check closes the link it opened. -/
theorem handshake_failure_link_not_left_open_witness :
    handshake { openOk := true, bannerLines := ["NotReady\r\n"], polls := [] } =
      .failed { error := .unexpectedBanner "NotReady\r\n", linkOpened := true,
                linkClosed := true, handlerCrashed := false } ∧
    ({ error := .unexpectedBanner "NotReady\r\n", linkOpened := true,
       linkClosed := true, handlerCrashed := false } : HSFailure).linkClosed =
      ({ error := .unexpectedBanner "NotReady\r\n", linkOpened := true,
         linkClosed := true, handlerCrashed := false } : HSFailure).linkOpened :=
  ⟨by decide,
   handshake_failure_link_not_left_open
     { openOk := true, bannerLines := ["NotReady\r\n"], polls := [] } _ (by decide)⟩

end ITM
